import Mathlib

/-
Verification of the statistical signal-processing core of the EEG platform
(resutil/resutil/siglib.py) against its natural-language specification.

Embedding conventions:
* Python floats are embedded as exact rationals (the algorithms under study
  are exact arithmetic plus comparisons; transcendental library calls are
  abstracted, see below).
* numpy arrays are Lean lists of rationals; numpy fancy indexing and the
  Python negative-index convention are modelled explicitly (pyGet, pyGets).
* Fallible code (Python exceptions: IndexError, ValueError, RuntimeError)
  is modelled with Option or a dedicated outcome type.
* Two external transcendental computations are abstracted as parameters:
  the FPR-corrected peak threshold of find_peak (norm.ppf composed with a
  square root; the theorems about find_peak quantify over every possible
  threshold value, which subsumes the actual one), and the FOOOF spectral
  fit inside fit_sfreq (an arbitrary function from the current sampling
  frequency to an optional fitted line-noise peak center).
* The standard deviation needs a real square root, so the CNR value lives
  in the reals; all inputs stay rational.
-/

namespace Siglib

/-- Embedding of np.abs on scalars, written with an explicit branch. -/
def npAbs (q : ℚ) : ℚ := if q < 0 then -q else q

/-- Embedding of the Python int() conversion: truncation toward zero. -/
def pyInt (q : ℚ) : ℤ := if 0 ≤ q then ⌊q⌋ else ⌈q⌉

/-- Resolution of a Python / numpy integer index against a sequence of
length n: indices in [0, n) are used directly, indices in [-n, 0) wrap
around from the end, anything else is an IndexError (none). -/
def pyIdx (n : ℕ) (i : ℤ) : Option ℕ :=
  if 0 ≤ i ∧ i < (n : ℤ) then some i.toNat
  else if -(n : ℤ) ≤ i ∧ i < 0 then some (i + (n : ℤ)).toNat
  else none

/-- Indexing a list with Python index semantics (wrap-around for negative
indices, IndexError as none). -/
def pyGet (l : List ℚ) (i : ℤ) : Option ℚ :=
  (pyIdx l.length i).bind fun j => l.get? j

/-- numpy fancy indexing psd[index_array]: every index is resolved with
Python semantics; a single out-of-range index fails the whole operation. -/
def pyGets (l : List ℚ) : List ℤ → Option (List ℚ)
  | [] => some []
  | i :: is =>
    match pyGet l i, pyGets l is with
    | some x, some xs => some (x :: xs)
    | _, _ => none

/-- Embedding of np.arange(a, b) on integers. -/
def arange (a b : ℤ) : List ℤ :=
  (List.range (b - a).toNat).map fun k => a + (k : ℤ)

/-- Scanning helper for np.argmin: first index attaining the minimum of
npAbs (x - pf). The accumulator holds the position of the current best
and its value; a later element replaces it only when strictly smaller,
matching the first-occurrence convention of np.argmin. -/
def argminAux (pf : ℚ) : List ℚ → ℕ → ℕ → ℚ → ℕ
  | [], _, best, _ => best
  | x :: xs, i, best, bestv =>
    if npAbs (x - pf) < bestv then argminAux pf xs (i + 1) i (npAbs (x - pf))
    else argminAux pf xs (i + 1) best bestv

/-- Embedding of np.argmin(np.abs(freq - peak_freq)): the first index of a
frequency bin at minimal distance from peak_freq (0 on the empty list;
the callers below only use it on nonempty input, as the source would
raise on an empty array). -/
def argminAbsSub (pf : ℚ) : List ℚ → ℕ
  | [] => 0
  | x :: xs => argminAux pf xs 1 0 (npAbs (x - pf))

/-- Embedding of np.mean. -/
def npMean (l : List ℚ) : ℚ := l.sum / l.length

/-- Embedding of np.var with the default ddof = 0 (population variance). -/
def npVar (l : List ℚ) : ℚ :=
  (l.map fun x => (x - npMean l) ^ 2).sum / l.length

/-- Embedding of np.std with the default ddof = 0: the real square root of
the population variance. -/
noncomputable def npStd (l : List ℚ) : ℝ := Real.sqrt (npVar l)

/-- Embedding of boolean-mask indexing arr[mask]: keep the elements whose
mask entry is true (numpy requires equal lengths; extra elements on
either side are dropped, which the call sites never exercise). -/
def maskFilter {α : Type} : List α → List Bool → List α
  | [], _ => []
  | _, [] => []
  | x :: xs, b :: bs => if b then x :: maskFilter xs bs else maskFilter xs bs

/-- Embedding of the not_peak_indicator mask of _cnr and _snr:
np.ones_like(psd, dtype=bool) with entry peak_idx set to False. -/
def notPeakMask (n : ℕ) (k : ℕ) : List Bool :=
  (List.range n).map fun i => decide (i ≠ k)

/-- Embedding of the band mask of cnr_by_band and snr_by_band:
np.ones_like(freq, dtype=bool) with entries freq < lo and freq > hi set
to False. -/
def bandMask (freq : List ℚ) (lo hi : ℚ) : List Bool :=
  freq.map fun f => !decide (f < lo) && !decide (f > hi)

/-- Embedding of _cnr (siglib.py lines 120-135): peak bin by argmin of the
frequency distance, noise statistics over the mask-filtered psd, result
(psd[peak_idx] - mu) / sigma. -/
noncomputable def cnrCore (freq psd : List ℚ) (peakFreq : ℚ) : ℝ :=
  let peakIdx := argminAbsSub peakFreq freq
  let noise := maskFilter psd (notPeakMask psd.length peakIdx)
  ((psd.getD peakIdx 0 - npMean noise : ℚ) : ℝ) / npStd noise

/-- Embedding of cnr (siglib.py lines 89-117): delegates to _cnr. -/
noncomputable def cnr (freq psd : List ℚ) (peakFreq : ℚ) : ℝ :=
  cnrCore freq psd peakFreq

/-- Embedding of cnr_by_band (siglib.py lines 49-86): build the band mask
from freq, filter freq and psd by it, delegate to cnr. -/
noncomputable def cnr_by_band (freq psd : List ℚ) (peakFreq lo hi : ℚ) : ℝ :=
  cnr (maskFilter freq (bandMask freq lo hi))
    (maskFilter psd (bandMask freq lo hi)) peakFreq

/-- Embedding of _snr (siglib.py lines 317-331): same peak / noise split as
_cnr, result psd[peak_idx] / mu with no check on mu. -/
def snrCore (freq psd : List ℚ) (peakFreq : ℚ) : ℚ :=
  let peakIdx := argminAbsSub peakFreq freq
  let noise := maskFilter psd (notPeakMask psd.length peakIdx)
  psd.getD peakIdx 0 / npMean noise

/-- Embedding of snr (siglib.py lines 292-314): delegates to _snr. -/
def snr (freq psd : List ℚ) (peakFreq : ℚ) : ℚ :=
  snrCore freq psd peakFreq

/-- Embedding of snr_by_band (siglib.py lines 252-289). -/
def snr_by_band (freq psd : List ℚ) (peakFreq lo hi : ℚ) : ℚ :=
  snr (maskFilter freq (bandMask freq lo hi))
    (maskFilter psd (bandMask freq lo hi)) peakFreq

/-- Embedding of siglib.py lines 170-172 inside find_peak: the local
statement search_width = 0.2 rebinds the name, so the caller-supplied
argument (kept here as the first, unused parameter) never reaches the
computation search_samples = int(search_width / freq_resolution). -/
def searchSamplesOf (_searchWidth freqRes : ℚ) : ℤ :=
  let searchWidthLocal : ℚ := 1 / 5
  pyInt (searchWidthLocal / freqRes)

/-- Search window of find_peak: np.arange(exp_peak_idx - search_samples,
exp_peak_idx + search_samples), with no clamping to the array bounds. -/
def peakRangeOf (freq : List ℚ) (peakFreq searchWidth : ℚ) : List ℤ :=
  let expPeakIdx : ℤ := (argminAbsSub peakFreq freq : ℕ)
  let ss := searchSamplesOf searchWidth (freq.getD 1 0 - freq.getD 0 0)
  arange (expPeakIdx - ss) (expPeakIdx + ss)

/-- Local maxima scanner of scipy.signal.find_peaks (_local_maxima_1d):
a maximal run of equal values is a peak when it has a strictly smaller
neighbour on each side; the recorded index is the floor midpoint of the
run. The first and last samples can never be peaks. The arguments are:
value before the current run, value of the run, start index of the run,
index of its current last element, and the remaining samples. -/
def lmAux : ℚ → ℚ → ℕ → ℕ → List ℚ → List ℕ
  | _, _, _, _, [] => []
  | prev, v, runStart, i, y :: ys =>
    if y = v then lmAux prev v runStart (i + 1) ys
    else if prev < v ∧ y < v ∧ 1 ≤ runStart then
      (runStart + i) / 2 :: lmAux v y (i + 1) (i + 1) ys
    else lmAux v y (i + 1) (i + 1) ys

/-- Indices of the local maxima of a sequence, scipy-style. The dummy
previous value handed to the scanner for the run starting at index 0 is
irrelevant: that run is excluded by the 1 <= runStart condition. -/
def localMaxima : List ℚ → List ℕ
  | [] => []
  | x :: xs => lmAux x x 0 0 xs

/-- Embedding of scipy.signal.find_peaks(x, height=h): the local maxima
whose sample value is at least h, in increasing order of index. -/
def peaksWithHeight (x : List ℚ) (h : ℚ) : List ℕ :=
  (localMaxima x).filter fun i => decide (h ≤ x.getD i 0)

/-- Embedding of peaks[np.argmax(props["peak_heights"])]: the first peak
of maximal height (a later candidate wins only when strictly higher),
none when no peak qualified (np.argmax raises ValueError on an empty
array, which find_peak catches). -/
def bestPeak (x : List ℚ) : List ℕ → Option ℕ
  | [] => none
  | p :: ps =>
    match bestPeak x ps with
    | none => some p
    | some q => if x.getD q 0 > x.getD p 0 then some q else some p

/-- Embedding of find_peak (siglib.py lines 138-204). The FPR-corrected
height np.mean(noise) + z * np.std(noise) involves the inverse normal
CDF and a square root, both transcendental; it is abstracted as the
parameter height, and every theorem below quantifies over it. Failure
modes mapped to none: fewer than two frequency bins (IndexError on
freq[1]), a nonpositive search_samples (the ValueError raised by the
guard), and a window index beyond the end of psd (IndexError during
fancy indexing). The final result is freq[peak_bin] under Python index
semantics. -/
def find_peak (freq psd : List ℚ) (peakFreq searchWidth height : ℚ) : Option ℚ :=
  if freq.length < 2 then none
  else if searchSamplesOf searchWidth (freq.getD 1 0 - freq.getD 0 0) ≤ 0 then none
  else
    match pyGets psd (peakRangeOf freq peakFreq searchWidth) with
    | none => none
    | some noise =>
      match bestPeak noise (peaksWithHeight noise height) with
      | some peak => pyGet freq ((peakRangeOf freq peakFreq searchWidth).getD peak 0)
      | none => pyGet freq ((argminAbsSub peakFreq freq : ℕ) : ℤ)

/-- Single correction step of _calc_fpr_normal_threshold: with
q = 1 - binom.pmf(k=0, n=n, p=p) = 1 - (1 - p)^n, move p down by p*p/q
when q overshoots alpha and up by p*p/q otherwise. At the top of every
iteration of the source loop the stored q equals 1 - (1 - p)^n for the
current p, so recomputing it here is faithful. -/
def fprUpd (n : ℕ) (alpha p : ℚ) : ℚ :=
  let q := 1 - (1 - p) ^ n
  if q - alpha > 0 then p - p * p / q else p + p * p / q

/-- Fuel-indexed embedding of the while loop of _calc_fpr_normal_threshold
(siglib.py lines 207-249). The source enforces no iteration bound, so
the loop terminates exactly when some finite fuel returns some p. -/
def fprLoop (n : ℕ) (alpha crit : ℚ) : ℕ → ℚ → Option ℚ
  | 0, p =>
    if npAbs (1 - (1 - p) ^ n - alpha) ≤ crit then some p else none
  | fuel + 1, p =>
    if npAbs (1 - (1 - p) ^ n - alpha) ≤ crit then some p
    else fprLoop n alpha crit fuel (fprUpd n alpha p)

/-- Embedding of _calc_fpr_normal_threshold: run the correction loop from
p = alpha and return ppf (1 - p), with the inverse normal CDF ppf
abstracted as a parameter (it is a transcendental float routine). -/
noncomputable def calcFprNormalThreshold (ppf : ℚ → ℝ) (alpha : ℚ) (n : ℕ)
    (crit : ℚ) (fuel : ℕ) : Option ℝ :=
  (fprLoop n alpha crit fuel alpha).map fun p => ppf (1 - p)

/-- Outcomes of fit_sfreq: a returned sampling frequency, or one of the
three RuntimeError exits (drift beyond 5 Hz, an empty FOOOF fit, and an
exhausted iteration budget). -/
inductive FitOutcome
  | ok (sfreq : ℚ)
  | driftError
  | lineNoiseFitError
  | convergenceFailedError
deriving DecidableEq

/-- Convergence test of fit_sfreq: np.abs(peak_center - target) < crit,
where the initial peak_center = np.inf (modelled as none) compares as
not converged. -/
def pcConverged (pc : Option ℚ) (target crit : ℚ) : Bool :=
  match pc with
  | none => false
  | some c => decide (npAbs (c - target) < crit)

/-- Embedding of the iteration of fit_sfreq (siglib.py lines 420-497).
The Welch spectrum plus FOOOF fit of one iteration is abstracted as the
parameter fit, mapping the current sampling-frequency hypothesis to the
fitted line-noise peak center (none when the fit yields zero peaks).
Each iteration checks the hard 5 Hz drift limit first, then the
convergence criterion, then fits and applies the damped correction
sfreq -= (peak_center - target) / 2. -/
def fitLoop (fit : ℚ → Option ℚ) (initialFs target crit : ℚ) :
    ℕ → ℚ → Option ℚ → FitOutcome
  | 0, _, _ => .convergenceFailedError
  | its + 1, sfreq, pc =>
    if npAbs (sfreq - initialFs) > 5 then .driftError
    else if pcConverged pc target crit then .ok sfreq
    else
      match fit sfreq with
      | none => .lineNoiseFitError
      | some c => fitLoop fit initialFs target crit its (sfreq - (c - target) / 2) (some c)

/-- Embedding of fit_sfreq: run the loop for max_its iterations starting
from sfreq = initial_fs and peak_center = np.inf. -/
def fit_sfreq (fit : ℚ → Option ℚ) (initialFs target crit : ℚ) (maxIts : ℕ) : FitOutcome :=
  fitLoop fit initialFs target crit maxIts initialFs none

/-- Error vocabulary of the specification (section 7). -/
inductive SigError
  | degenerateNoise
deriving DecidableEq

/-- Specification-side SNR for comparison with the source embedding: the
contract of spec section 4.2 states that snr returns S_f / mu and fails
with DegenerateNoiseError if mu <= 0. -/
def snrSpec (freq psd : List ℚ) (peakFreq : ℚ) : Except SigError ℚ :=
  let peakIdx := argminAbsSub peakFreq freq
  let mu := npMean (psd.eraseIdx peakIdx)
  if mu ≤ 0 then .error .degenerateNoise
  else .ok (psd.getD peakIdx 0 / mu)

/-- Specification-side band restriction for comparison with the by_band
variants: keep exactly the positions with lo <= freq[i] <= hi, in both
sequences simultaneously. -/
def bandRestrict (freq psd : List ℚ) (lo hi : ℚ) : List ℚ × List ℚ :=
  let kept := (freq.zip psd).filter fun p => decide (lo ≤ p.1) && decide (p.1 ≤ hi)
  (kept.map Prod.fst, kept.map Prod.snd)

/-- The concrete 91-point frequency grid of the specification scenario:
35.0, 35.1, ..., 44.9, 45.0. -/
def freqC2 : List ℚ :=
  [35, 351/10, 352/10, 353/10, 354/10, 355/10, 356/10, 357/10, 358/10, 359/10,
   36, 361/10, 362/10, 363/10, 364/10, 365/10, 366/10, 367/10, 368/10, 369/10,
   37, 371/10, 372/10, 373/10, 374/10, 375/10, 376/10, 377/10, 378/10, 379/10,
   38, 381/10, 382/10, 383/10, 384/10, 385/10, 386/10, 387/10, 388/10, 389/10,
   39, 391/10, 392/10, 393/10, 394/10, 395/10, 396/10, 397/10, 398/10, 399/10,
   40, 401/10, 402/10, 403/10, 404/10, 405/10, 406/10, 407/10, 408/10, 409/10,
   41, 411/10, 412/10, 413/10, 414/10, 415/10, 416/10, 417/10, 418/10, 419/10,
   42, 421/10, 422/10, 423/10, 424/10, 425/10, 426/10, 427/10, 428/10, 429/10,
   43, 431/10, 432/10, 433/10, 434/10, 435/10, 436/10, 437/10, 438/10, 439/10,
   44, 441/10, 442/10, 443/10, 444/10, 445/10, 446/10, 447/10, 448/10, 449/10,
   45]

/-- The concrete 91-point power spectrum of the specification scenario:
all ones, except the value 4 at index 50 (the 40.0 Hz bin). -/
def psdC2 : List ℚ :=
  [1, 1, 1, 1, 1, 1, 1, 1, 1, 1,
   1, 1, 1, 1, 1, 1, 1, 1, 1, 1,
   1, 1, 1, 1, 1, 1, 1, 1, 1, 1,
   1, 1, 1, 1, 1, 1, 1, 1, 1, 1,
   1, 1, 1, 1, 1, 1, 1, 1, 1, 1,
   4, 1, 1, 1, 1, 1, 1, 1, 1, 1,
   1, 1, 1, 1, 1, 1, 1, 1, 1, 1,
   1, 1, 1, 1, 1, 1, 1, 1, 1, 1,
   1, 1, 1, 1, 1, 1, 1, 1, 1, 1,
   1, 1, 1, 1, 1, 1, 1, 1, 1, 1,
   1]

/-- The first seven states of the FPR correction loop run at alpha = 13/15,
n = 2 in exact arithmetic (13/15 itself and its first six successors). -/
def fprBadStates : List ℚ :=
  [(13 : ℚ) / 15,
   (26 : ℚ) / 255,
   (9607 : ℚ) / 61710,
   (1686249461 : ℚ) / 7023400230,
   (32686177311951537569 : ℚ) / 86813096729303329770,
   (7444378630812490746033534752165634957629 : ℚ) / 12235439254769144256153277317275785376670,
   (217836954381525518361800498530946099088957781412461174894076276624032539140044649 : ℚ) / 208326704987483700076038844925021441125402057365727526293639046589117594305462370]

/-- Filtering by an all-true mask of matching length keeps every element. -/
theorem maskFilter_replicate_true {α : Type} (l : List α) :
    maskFilter l (List.replicate l.length true) = l := by
  induction l with
  | nil => rfl
  | cons x xs ih => simpa [maskFilter, List.replicate] using ih

/-- The mask-indexing of _cnr and _snr removes exactly the peak entry: it
agrees with List.eraseIdx at the peak index. -/
theorem maskFilter_notPeakMask {α : Type} (l : List α) :
    ∀ k, maskFilter l (notPeakMask l.length k) = l.eraseIdx k := by
  induction l with
  | nil => intro k; rfl
  | cons x xs ih =>
    intro k
    cases k with
    | zero =>
      have hmask : notPeakMask (x :: xs).length 0 =
          false :: List.replicate xs.length true := by
        simp [notPeakMask, List.range_succ_eq_map, List.map_map, Function.comp_def,
          Nat.succ_ne_zero, List.map_const]
      rw [hmask]
      simpa [maskFilter, List.eraseIdx] using maskFilter_replicate_true xs
    | succ j =>
      have hmask : notPeakMask (x :: xs).length (j + 1) =
          true :: notPeakMask xs.length j := by
        simp only [notPeakMask, List.length_cons, List.range_succ_eq_map,
          List.map_cons, List.map_map]
        refine congrArg₂ _ (by simp) (List.map_congr_left fun i _ => ?_)
        simp [Function.comp_def, Nat.succ_ne_succ]
      rw [hmask]
      simpa [maskFilter, List.eraseIdx] using ih j

/-- C3: for every spectrum and every peak frequency, cnr returns
(S_f - mu) / sigma, where S_f is the psd value at the index minimising
the distance of freq to peak_freq, and mu and sigma are the mean and the
standard deviation of psd with exactly that peak index removed. -/
theorem cnr_excludes_peak_bin (freq psd : List ℚ) (peakFreq : ℚ) :
    cnr freq psd peakFreq =
      ((psd.getD (argminAbsSub peakFreq freq) 0 -
        npMean (psd.eraseIdx (argminAbsSub peakFreq freq)) : ℚ) : ℝ) /
        Real.sqrt (npVar (psd.eraseIdx (argminAbsSub peakFreq freq))) := by
  simp only [cnr, cnrCore, npStd, maskFilter_notPeakMask]

/-- C4 (amended): snr returns S_f / mu with the peak bin excluded from the
noise mean, and performs no degeneracy check on mu: the equation holds
for every input, including those where mu is zero or negative. -/
theorem snr_is_peak_over_mean (freq psd : List ℚ) (peakFreq : ℚ) :
    snr freq psd peakFreq =
      psd.getD (argminAbsSub peakFreq freq) 0 /
        npMean (psd.eraseIdx (argminAbsSub peakFreq freq)) := by
  simp only [snr, snrCore, maskFilter_notPeakMask]

/-- C4 (counterexample): on the spectrum freq = [0, 1, 2],
psd = [-1, -1, 4] with peak_freq = 2 the noise mean is -1 <= 0, so the
specification demands a DegenerateNoiseError; the source snr instead
returns the value 4 / (-1) = -4. -/
theorem snr_no_degenerate_noise_check :
    snrSpec [0, 1, 2] [-1, -1, 4] 2 = Except.error SigError.degenerateNoise ∧
    snr [0, 1, 2] [-1, -1, 4] 2 = -4 := by
  have hidx : argminAbsSub 2 [0, 1, 2] = 2 := by
    norm_num [argminAbsSub, argminAux, npAbs]
  constructor
  · rw [snrSpec, hidx]
    norm_num [npMean]
  · rw [snr, snrCore]
    simp only [hidx, maskFilter_notPeakMask]
    norm_num [npMean, List.eraseIdx, List.getD_cons_succ, List.getD_cons_zero]

/-- The band mask is the pointwise test lo <= f <= hi. -/
theorem bandMask_eq_map (freq : List ℚ) (lo hi : ℚ) :
    bandMask freq lo hi =
      freq.map fun f => decide (lo ≤ f) && decide (f ≤ hi) := by
  unfold bandMask
  refine List.map_congr_left fun f _ => ?_
  simp only [← decide_not, not_lt, gt_iff_lt]

/-- Filtering two equal-length sequences by a boolean mask computed on the
first one agrees with filtering the zipped sequence and projecting. -/
theorem maskFilter_map_zip (g : ℚ → Bool) :
    ∀ (l1 l2 : List ℚ), l1.length = l2.length →
      maskFilter l1 (l1.map g) = ((l1.zip l2).filter fun p => g p.1).map Prod.fst ∧
      maskFilter l2 (l1.map g) = ((l1.zip l2).filter fun p => g p.1).map Prod.snd := by
  intro l1
  induction l1 with
  | nil =>
    intro l2 hlen
    have : l2 = [] := List.eq_nil_of_length_eq_zero hlen.symm
    subst this
    exact ⟨rfl, rfl⟩
  | cons x xs ih =>
    intro l2 hlen
    cases l2 with
    | nil => simp at hlen
    | cons y ys =>
      have hlen2 : xs.length = ys.length := by simpa using hlen
      obtain ⟨h1, h2⟩ := ih ys hlen2
      by_cases hg : g x = true
      · constructor
        · simpa [maskFilter, List.zip_cons_cons, List.filter_cons, hg] using h1
        · simpa [maskFilter, List.zip_cons_cons, List.filter_cons, hg] using h2
      · rw [Bool.not_eq_true] at hg
        constructor
        · simpa [maskFilter, List.zip_cons_cons, List.filter_cons, hg] using h1
        · simpa [maskFilter, List.zip_cons_cons, List.filter_cons, hg] using h2

/-- C7: cnr_by_band equals cnr on the subsequences of freq and psd at the
positions with lo <= freq[i] <= hi (inclusive on both ends), and
snr_by_band equals snr on the same restriction; both variants only
filter and delegate, passing peak_freq through unchanged. -/
theorem by_band_filters_then_delegates (freq psd : List ℚ) (peakFreq lo hi : ℚ)
    (hlen : freq.length = psd.length) :
    cnr_by_band freq psd peakFreq lo hi =
      cnr (bandRestrict freq psd lo hi).1 (bandRestrict freq psd lo hi).2 peakFreq ∧
    snr_by_band freq psd peakFreq lo hi =
      snr (bandRestrict freq psd lo hi).1 (bandRestrict freq psd lo hi).2 peakFreq := by
  obtain ⟨h1, h2⟩ :=
    maskFilter_map_zip (fun f => decide (lo ≤ f) && decide (f ≤ hi)) freq psd hlen
  constructor
  · rw [cnr_by_band, bandMask_eq_map, h1, h2]
    rfl
  · rw [snr_by_band, bandMask_eq_map, h1, h2]
    rfl

/-- C7 (witness): the delegation identity at a concrete spectrum. -/
theorem by_band_filters_then_delegates_witness :
    cnr_by_band [1, 2, 3] [5, 6, 7] 2 2 3 =
      cnr (bandRestrict [1, 2, 3] [5, 6, 7] 2 3).1
        (bandRestrict [1, 2, 3] [5, 6, 7] 2 3).2 2 ∧
    snr_by_band [1, 2, 3] [5, 6, 7] 2 2 3 =
      snr (bandRestrict [1, 2, 3] [5, 6, 7] 2 3).1
        (bandRestrict [1, 2, 3] [5, 6, 7] 2 3).2 2 :=
  by_band_filters_then_delegates [1, 2, 3] [5, 6, 7] 2 2 3 rfl

/-- C1 (code evaluation at the failing input): with the caller-supplied
search_width = 0.5 and frequency resolution 0.1 the source computes a
half-width of 2 bins, because the local statement search_width = 0.2
discards the argument; the claimed value floor(0.5 / 0.1) is 5. -/
theorem search_width_argument_is_ignored :
    searchSamplesOf (1/2) (1/10) = 2 ∧
    searchSamplesOf (1/2) (1/10) ≠ ⌊(1/2 : ℚ) / (1/10)⌋ := by
  have hcode : searchSamplesOf (1/2) (1/10) = 2 := by
    have h2 : ((1 : ℚ)/5) / (1/10) = ((2 : ℤ) : ℚ) := by norm_num
    rw [searchSamplesOf, pyInt]
    rw [show ((1 : ℚ)/5) / (1/10) = ((2 : ℤ) : ℚ) from h2]
    rw [if_pos (by norm_num), Int.floor_intCast]
  have hclaim : ⌊(1/2 : ℚ) / (1/10)⌋ = 5 := by
    rw [show (1/2 : ℚ) / (1/10) = ((5 : ℤ) : ℚ) by norm_num, Int.floor_intCast]
  exact ⟨hcode, by rw [hcode, hclaim]; decide⟩

/-- A value produced by Python indexing is an element of the list, for
in-range and wrapped-around indices alike. -/
theorem pyGet_mem {l : List ℚ} {i : ℤ} {x : ℚ} (h : pyGet l i = some x) : x ∈ l := by
  rw [pyGet, pyIdx] at h
  split_ifs at h with h1 h2
  · exact List.get?_mem (by simpa using h)
  · exact List.get?_mem (by simpa using h)
  · simp at h

/-- The argmin scanner returns either the incoming candidate or a position
of a scanned element, so it stays below i + length. -/
theorem argminAux_lt (pf : ℚ) :
    ∀ (xs : List ℚ) (i best : ℕ) (bestv : ℚ), best < i →
      argminAux pf xs i best bestv < i + xs.length := by
  intro xs
  induction xs with
  | nil => intro i best bestv h; simpa [argminAux] using h.trans_le (Nat.le_add_right i 0)
  | cons x xs ih =>
    intro i best bestv h
    rw [argminAux]
    simp only [List.length_cons]
    split_ifs
    · have := ih (i + 1) i (npAbs (x - pf)) (Nat.lt_succ_self i)
      omega
    · have := ih (i + 1) best bestv (h.trans (Nat.lt_succ_self i))
      omega

/-- On a nonempty list the argmin is a valid index. -/
theorem argminAbsSub_lt_length (pf : ℚ) (l : List ℚ) (hl : l ≠ []) :
    argminAbsSub pf l < l.length := by
  cases l with
  | nil => exact absurd rfl hl
  | cons x xs =>
    have := argminAux_lt pf xs 1 0 (npAbs (x - pf)) Nat.one_pos
    rw [argminAbsSub]
    simp only [List.length_cons]
    omega

/-- C6: whenever find_peak returns normally, the returned value is a member
of the input frequency array: both the qualifying-peak branch and the
fallback branch finish with a Python-semantics lookup into freq, which
can only produce an element of freq, including when the unclamped search
window makes the final index negative (wrap-around). -/
theorem find_peak_returns_frequency_bin (freq psd : List ℚ)
    (peakFreq searchWidth height v : ℚ)
    (hret : find_peak freq psd peakFreq searchWidth height = some v) : v ∈ freq := by
  rw [find_peak] at hret
  split_ifs at hret
  split at hret
  · exact absurd hret (by simp)
  · split at hret
    · exact pyGet_mem hret
    · exact pyGet_mem hret

/-- C6 (witness): a concrete run through the qualifying-peak branch. -/
theorem find_peak_returns_frequency_bin_witness :
    find_peak [0, 1/10, 1/5, 3/10, 2/5] [1, 1, 5, 1, 1] (1/5) (1/5) 2 = some (1/5) ∧
    (1/5 : ℚ) ∈ ([0, 1/10, 1/5, 3/10, 2/5] : List ℚ) := by
  have hargmin : argminAbsSub (1/5) [0, 1/10, 1/5, 3/10, 2/5] = 2 := by
    norm_num [argminAbsSub, argminAux, npAbs]
  have hres : ([0, 1/10, 1/5, 3/10, 2/5] : List ℚ).getD 1 0 -
      ([0, 1/10, 1/5, 3/10, 2/5] : List ℚ).getD 0 0 = 1/10 := by
    norm_num [List.getD_cons_succ, List.getD_cons_zero]
  have hss : searchSamplesOf (1/5) (1/10) = 2 := by
    rw [searchSamplesOf, pyInt]
    rw [show ((1 : ℚ)/5) / (1/10) = ((2 : ℤ) : ℚ) by norm_num]
    rw [if_pos (by norm_num), Int.floor_intCast]
  have hrange : peakRangeOf [0, 1/10, 1/5, 3/10, 2/5] (1/5) (1/5) = [0, 1, 2, 3] := by
    simp only [peakRangeOf, hargmin, hres, hss]
    decide
  have hrun : find_peak [0, 1/10, 1/5, 3/10, 2/5] [1, 1, 5, 1, 1] (1/5) (1/5) 2 =
      some (1/5) := by
    rw [find_peak]
    rw [if_neg (by norm_num : ¬ (([0, 1/10, 1/5, 3/10, 2/5] : List ℚ).length < 2))]
    rw [hres, hss]
    rw [if_neg (by decide : ¬ ((2 : ℤ) ≤ 0))]
    rw [hrange]
    rfl
  exact ⟨hrun,
    find_peak_returns_frequency_bin [0, 1/10, 1/5, 3/10, 2/5] [1, 1, 5, 1, 1]
      (1/5) (1/5) 2 (1/5) hrun⟩

/-- C5: when every local maximum of the windowed psd stays below the
detection threshold, a normal return of find_peak is the frequency bin
nearest the originally supplied peak_freq, never a window maximum. -/
theorem find_peak_fallback (freq psd : List ℚ) (peakFreq searchWidth height : ℚ)
    (noise : List ℚ) (v : ℚ)
    (hnoise : pyGets psd (peakRangeOf freq peakFreq searchWidth) = some noise)
    (hnomax : ∀ i ∈ localMaxima noise, noise.getD i 0 < height)
    (hret : find_peak freq psd peakFreq searchWidth height = some v) :
    v = freq.getD (argminAbsSub peakFreq freq) 0 := by
  have hpeaks : peaksWithHeight noise height = [] := by
    rw [peaksWithHeight, List.filter_eq_nil]
    intro i hi
    simpa using not_le.mpr (hnomax i hi)
  rw [find_peak] at hret
  split_ifs at hret with hlen hss
  rw [hnoise] at hret
  simp only [hpeaks] at hret
  rw [show bestPeak noise [] = none from rfl] at hret
  have hne : freq ≠ [] := by
    intro hcon
    rw [hcon] at hlen
    simp at hlen
  have hk : argminAbsSub peakFreq freq < freq.length := argminAbsSub_lt_length _ _ hne
  rw [pyGet, pyIdx,
    if_pos ⟨Int.natCast_nonneg _, by exact_mod_cast hk⟩] at hret
  simp only [Int.toNat_natCast, Option.some_bind] at hret
  rw [List.getD_eq_get?, hret]
  rfl

/-- C5 (witness): a flat windowed spectrum has no local maxima at all, so
the run falls back to the bin nearest the requested peak frequency. -/
theorem find_peak_fallback_witness :
    find_peak [0, 1/10, 1/5, 3/10, 2/5] [1, 1, 1, 1, 1] (1/5) (1/2) 1 = some (1/5) ∧
    (1/5 : ℚ) =
      ([0, 1/10, 1/5, 3/10, 2/5] : List ℚ).getD
        (argminAbsSub (1/5) [0, 1/10, 1/5, 3/10, 2/5]) 0 := by
  have hargmin : argminAbsSub (1/5) [0, 1/10, 1/5, 3/10, 2/5] = 2 := by
    norm_num [argminAbsSub, argminAux, npAbs]
  have hres : ([0, 1/10, 1/5, 3/10, 2/5] : List ℚ).getD 1 0 -
      ([0, 1/10, 1/5, 3/10, 2/5] : List ℚ).getD 0 0 = 1/10 := by
    norm_num [List.getD_cons_succ, List.getD_cons_zero]
  have hss : searchSamplesOf (1/2) (1/10) = 2 := by
    rw [searchSamplesOf, pyInt]
    rw [show ((1 : ℚ)/5) / (1/10) = ((2 : ℤ) : ℚ) by norm_num]
    rw [if_pos (by norm_num), Int.floor_intCast]
  have hrange : peakRangeOf [0, 1/10, 1/5, 3/10, 2/5] (1/5) (1/2) = [0, 1, 2, 3] := by
    simp only [peakRangeOf, hargmin, hres, hss]
    decide
  have hrun : find_peak [0, 1/10, 1/5, 3/10, 2/5] [1, 1, 1, 1, 1] (1/5) (1/2) 1 =
      some (1/5) := by
    rw [find_peak]
    rw [if_neg (by norm_num : ¬ (([0, 1/10, 1/5, 3/10, 2/5] : List ℚ).length < 2))]
    rw [hres, hss]
    rw [if_neg (by decide : ¬ ((2 : ℤ) ≤ 0))]
    rw [hrange, hargmin]
    rfl
  have hnoise : pyGets [1, 1, 1, 1, 1]
      (peakRangeOf [0, 1/10, 1/5, 3/10, 2/5] (1/5) (1/2)) = some [1, 1, 1, 1] := by
    rw [hrange]
    rfl
  refine ⟨hrun, ?_⟩
  refine find_peak_fallback [0, 1/10, 1/5, 3/10, 2/5] [1, 1, 1, 1, 1] (1/5) (1/2) 1
    [1, 1, 1, 1] (1/5) hnoise ?_ hrun
  intro i hi
  rw [show localMaxima [1, 1, 1, 1] = [] from by decide] at hi
  exact absurd hi (List.not_mem_nil i)

/-- The scalar absolute-value embedding agrees with the mathematical one. -/
theorem npAbs_eq_abs (q : ℚ) : npAbs q = |q| := by
  rw [npAbs]
  split_ifs with h
  · exact (abs_of_neg h).symm
  · exact (abs_of_nonneg (not_lt.mp h)).symm

/-- C10: a normal return of the sampling-frequency fitting loop is always
within the hard 5 Hz drift limit of the initial sampling frequency: the
drift check precedes the convergence return in every iteration, and the
estimate is not modified between the check and the return. -/
theorem fit_sfreq_converged_within_drift (fit : ℚ → Option ℚ)
    (initialFs target crit : ℚ) :
    ∀ (its : ℕ) (sfreq : ℚ) (pc : Option ℚ) (v : ℚ),
      fitLoop fit initialFs target crit its sfreq pc = FitOutcome.ok v →
      npAbs (v - initialFs) ≤ 5 := by
  intro its
  induction its with
  | zero =>
    intro sfreq pc v h
    exact absurd h (by simp [fitLoop])
  | succ k ih =>
    intro sfreq pc v h
    rw [fitLoop] at h
    split_ifs at h with hdrift hconv
    · injection h with hv
      rw [← hv]
      exact not_lt.mp hdrift
    · cases hf : fit sfreq with
      | none =>
        rw [hf] at h
        exact absurd h (by simp)
      | some c =>
        rw [hf] at h
        exact ih _ _ _ h

/-- C10 (witness): a converged run returns the unchanged estimate, which is
trivially within the drift bound. -/
theorem fit_sfreq_converged_within_drift_witness :
    fitLoop (fun _ => some 50) 500 50 1 2 500 none = FitOutcome.ok 500 ∧
    npAbs ((500 : ℚ) - 500) ≤ 5 := by
  have hrun : fitLoop (fun _ => some 50) 500 50 1 2 500 none = FitOutcome.ok 500 := by
    norm_num [fitLoop, pcConverged, npAbs]
  exact ⟨hrun,
    fit_sfreq_converged_within_drift (fun _ => some 50) 500 50 1 2 500 none 500 hrun⟩

/-- C8: the drift guard of fit_sfreq. First, any iteration that starts with
the estimate more than 5 Hz away from the initial sampling frequency
exits immediately with the drift error, returning no value. Second, when
every spectral fit places the line-noise peak more than 10 Hz from the
target (more than a 5 Hz-equivalent correction, since the damped update
moves the estimate by half the discrepancy), the whole search fails with
the drift error rather than converging. -/
theorem fit_sfreq_drift_rejection :
    (∀ (fit : ℚ → Option ℚ) (initialFs target crit sfreq : ℚ)
        (pc : Option ℚ) (its : ℕ),
        npAbs (sfreq - initialFs) > 5 →
        fitLoop fit initialFs target crit (its + 1) sfreq pc = FitOutcome.driftError) ∧
    (∀ (fit : ℚ → Option ℚ) (initialFs target crit : ℚ) (maxIts : ℕ),
        (∀ s : ℚ, ∃ c : ℚ, fit s = some c ∧ 10 < npAbs (c - target)) →
        2 ≤ maxIts →
        fit_sfreq fit initialFs target crit maxIts = FitOutcome.driftError) := by
  have hstep : ∀ (fit : ℚ → Option ℚ) (initialFs target crit sfreq : ℚ)
      (pc : Option ℚ) (its : ℕ),
      npAbs (sfreq - initialFs) > 5 →
      fitLoop fit initialFs target crit (its + 1) sfreq pc = FitOutcome.driftError := by
    intro fit i t c s pc its h
    rw [fitLoop, if_pos h]
  refine ⟨hstep, ?_⟩
  intro fit i t c maxIts hfit hits
  obtain ⟨m, rfl⟩ : ∃ m, maxIts = (m + 1) + 1 := ⟨maxIts - 2, by omega⟩
  obtain ⟨c0, hc0, hc0far⟩ := hfit i
  rw [fit_sfreq, fitLoop]
  rw [if_neg (by norm_num [npAbs] : ¬ npAbs ((i : ℚ) - i) > 5)]
  rw [if_neg (by simp [pcConverged] : ¬ pcConverged none t c = true)]
  rw [hc0]
  apply hstep
  have heq : i - (c0 - t) / 2 - i = -((c0 - t) / 2) := by ring
  rw [heq, npAbs_eq_abs, abs_neg, abs_div]
  rw [npAbs_eq_abs] at hc0far
  have h2 : |(2 : ℚ)| = 2 := by norm_num
  rw [h2]
  linarith

/-- C8 (witness): a fit that always reports the line peak at 61 Hz against
the 50 Hz target drives the estimate out of the drift bound. -/
theorem fit_sfreq_drift_rejection_witness :
    fit_sfreq (fun _ => some 61) 500 50 (1/100) 50 = FitOutcome.driftError :=
  fit_sfreq_drift_rejection.2 (fun _ => some 61) 500 50 (1/100) 50
    (fun _ => ⟨61, rfl, by norm_num [npAbs]⟩) (by norm_num)

/-- Step 0 of the loop at alpha = 13/15, n = 2. -/
theorem fprUpd_step0 :
    fprUpd 2 (13/15) ((13 : ℚ) / 15) = (26 : ℚ) / 255 := by
  norm_num [fprUpd]

/-- Step 1 of the loop at alpha = 13/15, n = 2. -/
theorem fprUpd_step1 :
    fprUpd 2 (13/15) ((26 : ℚ) / 255) = (9607 : ℚ) / 61710 := by
  norm_num [fprUpd]

/-- Step 2 of the loop at alpha = 13/15, n = 2. -/
theorem fprUpd_step2 :
    fprUpd 2 (13/15) ((9607 : ℚ) / 61710) = (1686249461 : ℚ) / 7023400230 := by
  norm_num [fprUpd]

/-- Step 3 of the loop at alpha = 13/15, n = 2. -/
theorem fprUpd_step3 :
    fprUpd 2 (13/15) ((1686249461 : ℚ) / 7023400230) = (32686177311951537569 : ℚ) / 86813096729303329770 := by
  norm_num [fprUpd]

/-- Step 4 of the loop at alpha = 13/15, n = 2. -/
theorem fprUpd_step4 :
    fprUpd 2 (13/15) ((32686177311951537569 : ℚ) / 86813096729303329770) = (7444378630812490746033534752165634957629 : ℚ) / 12235439254769144256153277317275785376670 := by
  norm_num [fprUpd]

/-- Step 5 of the loop at alpha = 13/15, n = 2. -/
theorem fprUpd_step5 :
    fprUpd 2 (13/15) ((7444378630812490746033534752165634957629 : ℚ) / 12235439254769144256153277317275785376670) = (217836954381525518361800498530946099088957781412461174894076276624032539140044649 : ℚ) / 208326704987483700076038844925021441125402057365727526293639046589117594305462370 := by
  norm_num [fprUpd]

/-- Step 6 of the loop at alpha = 13/15, n = 2. -/
theorem fprUpd_step6 :
    fprUpd 2 (13/15) ((217836954381525518361800498530946099088957781412461174894076276624032539140044649 : ℚ) / 208326704987483700076038844925021441125402057365727526293639046589117594305462370) = (-2071683763406818273803623998572788666553495466515652041278573936737475350652821009666355661882672804421807653699851898682360033936910824854239762989819324175071 : ℚ) / 41418777091072120454341525314522528947507157550033331189556507651656397219001031400624784288582063492849874992877680282599605225883295919295413040075332582675670 := by
  norm_num [fprUpd]

/-- Inside the strictly negative region the loop is trapped: the stopping
criterion can never hold there (q = 1 - (1 - p)^2 is negative while
alpha = 13/15 is large), and the update keeps p strictly negative. -/
theorem fpr_neg_absorbing (p : ℚ) (hp : p < 0) :
    ¬ npAbs (1 - (1 - p) ^ 2 - 13/15) ≤ 1/10000 ∧ fprUpd 2 (13/15) p < 0 := by
  have hq : 1 - (1 - p) ^ 2 < 0 := by nlinarith
  constructor
  · intro hcon
    rw [npAbs] at hcon
    split_ifs at hcon with hsign
    · linarith
    · linarith
  · simp only [fprUpd]
    rw [if_neg (by linarith : ¬ 1 - (1 - p) ^ 2 - 13/15 > 0)]
    have hpp : 0 < p * p := mul_pos_of_neg_of_neg hp hp
    have hdiv : p * p / (1 - (1 - p) ^ 2) < 0 := div_neg_of_pos_of_neg hpp hq
    linarith

/-- None of the seven visited trajectory states satisfies the stopping
criterion with alpha = 13/15 and the default criterion 1/10000. -/
theorem fpr_traj_no_exit :
    ∀ p ∈ fprBadStates, ¬ npAbs (1 - (1 - p) ^ 2 - 13/15) ≤ 1/10000 := by
  intro p hp
  fin_cases hp <;> norm_num [npAbs]

/-- From any strictly negative state or any of the seven visited states,
the loop at alpha = 13/15, n = 2 exhausts every finite fuel. -/
theorem fprLoop_none_of_bad :
    ∀ (fuel : ℕ) (p : ℚ), (p < 0 ∨ p ∈ fprBadStates) →
      fprLoop 2 (13/15) (1/10000) fuel p = none := by
  intro fuel
  induction fuel with
  | zero =>
    intro p hp
    rw [fprLoop]
    rcases hp with hneg | hmem
    · exact if_neg (fpr_neg_absorbing p hneg).1
    · exact if_neg (fpr_traj_no_exit p hmem)
  | succ k ih =>
    intro p hp
    rw [fprLoop]
    rcases hp with hneg | hmem
    · rw [if_neg (fpr_neg_absorbing p hneg).1]
      exact ih _ (Or.inl (fpr_neg_absorbing p hneg).2)
    · rw [if_neg (fpr_traj_no_exit p hmem)]
      apply ih
      fin_cases hmem
      · rw [fprUpd_step0]
        right
        norm_num [fprBadStates, List.mem_cons]
      · rw [fprUpd_step1]
        right
        norm_num [fprBadStates, List.mem_cons]
      · rw [fprUpd_step2]
        right
        norm_num [fprBadStates, List.mem_cons]
      · rw [fprUpd_step3]
        right
        norm_num [fprBadStates, List.mem_cons]
      · rw [fprUpd_step4]
        right
        norm_num [fprBadStates, List.mem_cons]
      · rw [fprUpd_step5]
        right
        norm_num [fprBadStates, List.mem_cons]
      · rw [fprUpd_step6]
        left
        norm_num

/-- C9 (counterexample): at alpha = 13/15 (inside (0,1)) and n = 2 the
correction loop of _calc_fpr_normal_threshold never meets the stopping
criterion: no finite number of iterations returns a value. After seven
exact steps the iterate turns negative, and the negative region is
absorbing with the residual bounded away from the criterion. -/
theorem fpr_loop_not_always_terminating :
    ¬ ∃ fuel, (fprLoop 2 (13/15) (1/10000) fuel (13/15)).isSome := by
  rintro ⟨fuel, hf⟩
  rw [fprLoop_none_of_bad fuel (13/15)
    (Or.inr (by rw [fprBadStates]; exact List.mem_cons_self _ _))] at hf
  simp at hf

/-- C9 (amended): the loop is not guaranteed to terminate, but whenever it
does return a final p, the stopping criterion holds at that p, so the
function returns the inverse normal CDF at 1 - p with the residual
within the criterion. -/
theorem fpr_loop_stops_below_criterion (n : ℕ) (alpha crit : ℚ) :
    ∀ (fuel : ℕ) (pstart p : ℚ), fprLoop n alpha crit fuel pstart = some p →
      npAbs (1 - (1 - p) ^ n - alpha) ≤ crit := by
  intro fuel
  induction fuel with
  | zero =>
    intro pstart p h
    rw [fprLoop] at h
    split_ifs at h with hc
    injection h with hp
    rw [← hp]
    exact hc
  | succ k ih =>
    intro pstart p h
    rw [fprLoop] at h
    split_ifs at h with hc
    · injection h with hp
      rw [← hp]
      exact hc
    · exact ih _ _ h

set_option maxHeartbeats 8000000 in
/-- C2: on the 91-point grid 35.0, 35.1, ..., 45.0 with the single elevated
bin psd[50] = 4 at 40.0 Hz, find_peak with peak_freq = 40 and the
caller-supplied search_width = 0.5 returns exactly 40, whatever value
the abstracted FPR threshold takes (in particular the value computed
for alpha = 0.01): when the elevated bin passes the threshold it is the
only qualifying window maximum and maps back to global index 50, and
otherwise the fallback returns the bin nearest 40.0, the same index. -/
theorem find_peak_concrete_scenario (height : ℚ) :
    find_peak freqC2 psdC2 40 (1/2) height = some 40 := by
  have hargmin : argminAbsSub 40 freqC2 = 50 := by
    norm_num [freqC2, argminAbsSub, argminAux, npAbs]
  have hres : freqC2.getD 1 0 - freqC2.getD 0 0 = 1/10 := by
    norm_num [freqC2, List.getD_cons_succ, List.getD_cons_zero]
  have hss : searchSamplesOf (1/2) (1/10) = 2 := by
    rw [searchSamplesOf, pyInt]
    rw [show ((1 : ℚ)/5) / (1/10) = ((2 : ℤ) : ℚ) by norm_num]
    rw [if_pos (by norm_num), Int.floor_intCast]
  have hrange : peakRangeOf freqC2 40 (1/2) = [48, 49, 50, 51] := by
    simp only [peakRangeOf, hargmin, hres, hss]
    decide
  have hgets : pyGets psdC2 [48, 49, 50, 51] = some [1, 1, 4, 1] := by rfl
  have hlm : localMaxima [1, 1, 4, 1] = [2] := by decide
  rw [find_peak]
  rw [if_neg (by decide : ¬ (freqC2.length < 2))]
  rw [hres, hss]
  rw [if_neg (by decide : ¬ ((2 : ℤ) ≤ 0))]
  rw [hrange]
  simp only [hgets]
  by_cases hc : height ≤ 4
  · have hp : peaksWithHeight [1, 1, 4, 1] height = [2] := by
      rw [peaksWithHeight, hlm]
      simp [List.filter, List.getD_cons_succ, List.getD_cons_zero, hc]
    rw [hp]
    simp only [show bestPeak [1, 1, 4, 1] [2] = some 2 from rfl]
    rfl
  · have hp : peaksWithHeight [1, 1, 4, 1] height = [] := by
      rw [peaksWithHeight, hlm]
      simp [List.filter, List.getD_cons_succ, List.getD_cons_zero, hc]
    rw [hp]
    simp only [show bestPeak [1, 1, 4, 1] ([] : List ℕ) = none from rfl]
    rw [hargmin]
    rfl

/-- C9 (witness): a run that stops immediately, with the criterion holding
at the returned value. -/
theorem fpr_loop_stops_below_criterion_witness :
    fprLoop 1 (1/100) (1/10000) 0 (1/100) = some (1/100) ∧
    npAbs (1 - (1 - 1/100 : ℚ) ^ 1 - 1/100) ≤ 1/10000 := by
  have hrun : fprLoop 1 (1/100) (1/10000) 0 (1/100) = some (1/100) := by
    rw [fprLoop]
    rw [if_pos (by norm_num [npAbs])]
  exact ⟨hrun,
    fpr_loop_stops_below_criterion 1 (1/100) (1/10000) 0 (1/100) (1/100) hrun⟩

end Siglib
